import Mathlib

/-!
Shallow embedding of the process-management and virtual-memory syscalls of a
small RISC-V teaching kernel, taken from `src/os/src/syscall/process.rs` and
`src/os/src/task/context.rs`, together with proofs about their documented
behaviour.  Components of the kernel that the excerpt only calls into
(the address-space layer, the loader, the pointer bridge, task-control-block
construction) are modelled from the specification and marked as such.
-/

/-- Modelled from the spec: `config::PAGE_SIZE` is not part of the excerpt;
the paged hardware model uses 4096-byte pages (RISC-V Sv39). -/
def PAGE_SIZE : Nat := 4096

/-- Modelled from the spec: the `MapPermission` bit flags of the
address-space layer (`mm::MapPermission`, not in the excerpt).  The bit
assignments follow the RISC-V page-table-entry flag positions. -/
def MapPermission.R : Nat := 2

/-- Write-permission bit of `MapPermission`. -/
def MapPermission.W : Nat := 4

/-- Execute-permission bit of `MapPermission`. -/
def MapPermission.X : Nat := 8

/-- User-accessibility bit of `MapPermission`. -/
def MapPermission.U : Nat := 16

/-- A mapped virtual region `[start, stop)` with its permission bits
(spec section 3: a Memory Region is `(start, end, permissions)` with
page-aligned bounds). -/
structure MemArea where
  start : Nat
  stop : Nat
  perm : Nat
  deriving DecidableEq, Repr

/-- Ranges `[a.start, a.stop)` and `[s, e)` intersect. -/
def MemArea.overlaps (a : MemArea) (s e : Nat) : Bool :=
  decide (a.start < e ∧ s < a.stop)

/-- `a` has exactly the bounds `[s, e)`. -/
def MemArea.exactMatch (a : MemArea) (s e : Nat) : Bool :=
  a.start == s && a.stop == e

/-- An address space is its collection of regions, kept in address order
(spec section 4.1: regions are inserted in address order). -/
abbrev MemorySet := List MemArea

/-- Insertion into the address-ordered region list. -/
def insertArea (r : MemArea) : MemorySet → MemorySet
  | [] => [r]
  | a :: rest => if r.start ≤ a.start then r :: a :: rest else a :: insertArea r rest

/-- Error taxonomy of the address-space layer (spec section 7). -/
inductive MmErr where
  | overlap
  | invalidPermission
  | notFound
  deriving DecidableEq, Repr

/-- Modelled from the spec: `MemorySet::mmap_allocate_area`, the
`allocate_region` operation of spec section 4.1 (the address-space layer is
not in the excerpt).  It fails with `Overlap` if the requested range
intersects any existing region, fails with `InvalidPermission` if the
permissions carry no access bits, and otherwise inserts the region in
address order. -/
def mmap_allocate_area (ms : MemorySet) (start stop perm : Nat) :
    Except MmErr MemorySet :=
  if ms.any (fun a => a.overlaps start stop) then .error .overlap
  else if perm &&& (MapPermission.R ||| MapPermission.W ||| MapPermission.X) = 0 then
    .error .invalidPermission
  else .ok (insertArea { start := start, stop := stop, perm := perm } ms)

/-- Modelled from the spec: `MemorySet::unmap_free_area`, the `free_region`
operation of spec section 4.1 (not in the excerpt).  It requires an existing
region whose bounds match `[start, stop)` exactly, fails with `NotFound`
otherwise, and removes that region. -/
def unmap_free_area (ms : MemorySet) (start stop : Nat) :
    Except MmErr MemorySet :=
  if ms.any (fun a => a.exactMatch start stop) then
    .ok (ms.eraseP (fun a => a.exactMatch start stop))
  else .error .notFound

/-- The page-rounding of `len` performed by `sys_mmap` (process.rs lines
163-167: `len += PAGE_SIZE; len -= len % PAGE_SIZE` when `len` is not a
multiple of the page size). -/
def pageRound (len : Nat) : Nat :=
  if len % PAGE_SIZE > 0 then (len + PAGE_SIZE) - (len + PAGE_SIZE) % PAGE_SIZE
  else len

/-- The `MapPermission` built by `sys_mmap` from the low three `port` bits
(process.rs lines 175-184). -/
def mkPermission (port : Nat) : Nat :=
  MapPermission.U
    ||| (if port &&& 1 > 0 then MapPermission.R else 0)
    ||| (if port &&& 2 > 0 then MapPermission.W else 0)
    ||| (if port &&& 4 > 0 then MapPermission.X else 0)

/-- `sys_mmap` (process.rs lines 158-195): rejects a misaligned `start`,
rounds `len` up to a whole number of pages, builds the `MapPermission` from
the low three `port` bits, rejects `port`s with high bits or without access
bits, and delegates to `mmap_allocate_area` on the current task's memory
set.  Returns the result register and the (possibly updated) memory set. -/
def sys_mmap (ms : MemorySet) (start len port : Nat) : Int × MemorySet :=
  if start % PAGE_SIZE ≠ 0 then (-1, ms)
  else
    let len := pageRound len
    let permission := mkPermission port
    if port - (port &&& 7) > 0 ∨ permission = MapPermission.U then (-1, ms)
    else
      match mmap_allocate_area ms start (start + len) permission with
      | .ok ms2 => (0, ms2)
      | .error _ => (-1, ms)

/-- `sys_munmap` (process.rs lines 198-213): rejects a misaligned `start`
and otherwise delegates to `unmap_free_area` with the raw, unrounded
`[start, start + len)` range. -/
def sys_munmap (ms : MemorySet) (start len : Nat) : Int × MemorySet :=
  if start % PAGE_SIZE ≠ 0 then (-1, ms)
  else
    match unmap_free_area ms start (start + len) with
    | .ok ms2 => (0, ms2)
    | .error _ => (-1, ms)

/-- `usize` on RV64 is 64 bits wide: arithmetic wraps modulo `2 ^ 64`. -/
def USIZE_MOD : Nat := 2 ^ 64

/-- Wrapping `usize` subtraction: two's-complement `a - b` as in the
release-mode build of the kernel. -/
def usizeSub (a b : Nat) : Nat :=
  (((a : Int) - (b : Int)) % (USIZE_MOD : Int)).toNat

/-- Task life-cycle states (spec section 3). -/
inductive TaskStatus where
  | Ready
  | Running
  | Zombie
  deriving DecidableEq, Repr

/-- The `TaskInfo` record filled in by `sys_task_info` (process.rs lines
27-34): status, per-syscall counters, and elapsed running time. -/
structure TaskInfo where
  status : TaskStatus
  syscall_times : List Nat
  time : Nat
  deriving DecidableEq, Repr

/-- The truncated millisecond clock computed by `sys_task_info`:
`(sec & 0xffff) * 1000 + usec / 1000` for `sec = us / 1000000`,
`usec = us % 1000000`. -/
def truncMs (us : Nat) : Nat :=
  (us / 1000000 &&& 0xffff) * 1000 + us % 1000000 / 1000

/-- The untruncated wall-clock milliseconds of the same instant. -/
def trueMs (us : Nat) : Nat :=
  us / 1000000 * 1000 + us % 1000000 / 1000

/-- `sys_task_info` (process.rs lines 138-154): fills status and syscall
counters from the current task and computes the reported time as
`(sec & 0xffff) * 1000 + usec / 1000` minus the stored `running_time`, in
wrapping `usize` arithmetic.  `us` is the value read from `get_time_us` and
`running_time` the task's stored baseline. -/
def sys_task_info (status : TaskStatus) (syscall_count : List Nat)
    (us running_time : Nat) : TaskInfo :=
  let sec := us / 1000000
  let usec := us % 1000000
  let t := (sec &&& 0xffff) * 1000 + usec / 1000
  { status := status, syscall_times := syscall_count,
    time := usizeSub t running_time }

/-- The kernel code addresses a saved task context can return to. -/
inductive CodeAddr where
  | null
  | trapReturn
  | trapExec
  deriving DecidableEq, Repr

/-- `TaskContext` (context.rs lines 7-16): return address, kernel stack
pointer, and the twelve callee-saved registers. -/
structure TaskContext where
  ra : CodeAddr
  sp : Nat
  s : List Nat
  deriving DecidableEq, Repr

/-- `TaskContext::zero_init` (context.rs lines 20-26). -/
def TaskContext.zero_init : TaskContext :=
  { ra := .null, sp := 0, s := List.replicate 12 0 }

/-- `TaskContext::goto_trap_return` (context.rs lines 28-34). -/
def TaskContext.goto_trap_return (kstack_ptr : Nat) : TaskContext :=
  { ra := .trapReturn, sp := kstack_ptr, s := List.replicate 12 0 }

/-- `TaskContext::goto_trap_exec` (context.rs lines 37-43): identical to
`goto_trap_return` except that `ra` points at the first-dispatch routine
`trap_exec`. -/
def TaskContext.goto_trap_exec (kstack_ptr : Nat) : TaskContext :=
  { ra := .trapExec, sp := kstack_ptr, s := List.replicate 12 0 }

/-- Modelled from the spec: a loadable program image, as produced by the
external ELF loader (spec section 6): the address space built from the image
together with its entry point and initial user stack pointer. -/
structure Image where
  memory_set : MemorySet
  entry : Nat
  usp : Nat
  deriving DecidableEq, Repr

/-- Modelled from the spec: `loader::get_app_data_by_name`, the image-loader
interface `lookup(name) -> Option<Image>` (spec section 6).  `apps` is the
table of embedded application images. -/
def get_app_data_by_name (name : String) (apps : List (String × Image)) :
    Option Image :=
  (apps.find? (fun e => e.1 == name)).map (fun e => e.2)

/-- Modelled from the spec: the user-mode trap context; only the fields the
claims observe (entry pc, user stack pointer, return-value register). -/
structure TrapContext where
  sepc : Nat
  sp : Nat
  a0 : Int
  deriving DecidableEq, Repr

/-- Task control block: the per-task fields the embedded syscalls touch
(spec section 3).  `cmd_path` is the pending exec path of a spawned task. -/
structure TCB where
  pid : Nat
  status : TaskStatus
  exit_code : Int
  memory_set : MemorySet
  trap_cx : TrapContext
  task_cx : TaskContext
  cmd_path : String
  syscall_count : List Nat
  running_time : Nat
  deriving DecidableEq, Repr

/-- `TaskControlBlockInner::is_zombie`. -/
def TCB.is_zombie (t : TCB) : Bool := t.status == .Zombie

/-- `TaskControlBlock::getpid`. -/
def TCB.getpid (t : TCB) : Nat := t.pid

/-- Modelled from the spec: `TaskControlBlock::exec` (spec section 4.3):
replaces the task's address space with the image's and resets the trap
context to the image's entry point and initial stack; pid and links are
preserved. -/
def TCB.exec (t : TCB) (img : Image) : TCB :=
  { t with memory_set := img.memory_set,
           trap_cx := { sepc := img.entry, sp := img.usp, a0 := 0 } }

/-- The kernel state visible to the embedded syscalls: the loader's image
table, the current task, its children, the scheduler's run queue, and the
next fresh pid. -/
structure Kernel where
  apps : List (String × Image)
  current : TCB
  children : List TCB
  run_queue : List TCB
  next_pid : Nat
  deriving DecidableEq, Repr

/-- `sys_exec` (process.rs lines 70-81): looks the path up in the loader and
either replaces the current task via `exec`, returning 0, or returns -1 with
the state untouched.  The path string has already been copied out of user
memory by `translated_str`. -/
def sys_exec (k : Kernel) (path : String) : Int × Kernel :=
  match get_app_data_by_name path k.apps with
  | some data => (0, { k with current := k.current.exec data })
  | none => (-1, k)

/-- Modelled from the spec: the child built by `TaskControlBlock::spawn`
(spec sections 4.3 and 4.5): a fresh pid, a Ready status, the pending exec
path recorded in `cmd_path`, and a task context created by `goto_trap_exec`
so that the task's first dispatch runs the deferred exec. -/
def spawn_child (k : Kernel) (path : String) : TCB :=
  { pid := k.next_pid, status := .Ready, exit_code := 0, memory_set := [],
    trap_cx := { sepc := 0, sp := 0, a0 := 0 },
    task_cx := TaskContext.goto_trap_exec k.next_pid,
    cmd_path := path, syscall_count := [], running_time := 0 }

/-- `sys_spawn` (process.rs lines 228-245): returns -1 if the loader has no
image of that name, before any task is created; otherwise creates the child
via `spawn`, links it into the parent's children, and adds it to the
scheduler's run queue. -/
def sys_spawn (k : Kernel) (path : String) : Int × Kernel :=
  if (get_app_data_by_name path k.apps).isNone then (-1, k)
  else
    let child := spawn_child k path
    ((child.pid : Int),
     { k with children := k.children ++ [child],
              run_queue := k.run_queue ++ [child],
              next_pid := k.next_pid + 1 })

/-- What becomes of a task dispatched into a trampoline routine. -/
inductive TrapOutcome where
  | userResume (t : TCB)
  | killed (exit_code : Int)
  deriving DecidableEq, Repr

/-- `trap_exec` (context.rs lines 47-65): the first-dispatch routine of a
spawned task.  It reads the task's pending `cmd_path`; if the loader still
has the image it performs `exec` and falls through to `trap_return`,
resuming user mode in the new image; otherwise it terminates the task via
`exit_current_and_run_next(1)` and never resumes user mode. -/
def trap_exec (apps : List (String × Image)) (t : TCB) : TrapOutcome :=
  match get_app_data_by_name t.cmd_path apps with
  | some data => .userResume (t.exec data)
  | none => .killed 1

/-- The child-matching test of `sys_waitpid`
(`pid == -1 || pid as usize == p.getpid()`); the `as usize` cast wraps the
signed argument modulo `2 ^ 64`. -/
def waitpid_matches (pid : Int) (p : TCB) : Bool :=
  pid == -1 || (pid % (USIZE_MOD : Int)).toNat == p.getpid

/-- The `children.iter().enumerate().find(..)` step of `sys_waitpid`: the
first (index, child) pair whose child is a Zombie and matches `pid`. -/
def find_zombie (pid : Int) : List TCB → Option (Nat × TCB)
  | [] => none
  | p :: rest =>
    if p.is_zombie && waitpid_matches pid p then some (0, p)
    else (find_zombie pid rest).map (fun ic => (ic.1 + 1, ic.2))

/-- `sys_waitpid` (process.rs lines 85-120) acting on the caller's children
list: returns the result register, the updated children list, and the exit
code written through `exit_code_ptr` (when one is written). -/
def sys_waitpid (children : List TCB) (pid : Int) :
    Int × List TCB × Option Int :=
  if ¬ children.any (fun p => waitpid_matches pid p) then (-1, children, none)
  else
    match find_zombie pid children with
    | some (idx, child) =>
      ((child.getpid : Int), children.eraseIdx idx, some child.exit_code)
    | none => (-2, children, none)

/-- A page table: virtual page number to physical frame number, `none` where
unmapped (the spec's `translate`, section 4.1). -/
abbrev PageTable := Nat → Option Nat

/-- Physical memory: the byte stored at each physical address. -/
abbrev PhysMem := Nat → Nat

/-- Per-byte address translation: the page containing the byte is translated
and the in-page offset re-attached (spec section 4.2: the pointer bridge
translates per page, never only the starting address). -/
def physAddr (pt : PageTable) (va : Nat) : Option Nat :=
  (pt (va / PAGE_SIZE)).map (fun ppn => ppn * PAGE_SIZE + va % PAGE_SIZE)

/-- Modelled from the spec: the pointer-bridge write (spec section 4.2,
backing `translated_refmut`, which is not in the excerpt).  The value's
bytes are written one at a time, each through its own page's translation;
the write fails with `none` (`Fault`) if any byte's page is unmapped. -/
def writeBytes (pt : PageTable) (mem : PhysMem) (va : Nat) :
    List Nat → Option PhysMem
  | [] => some mem
  | b :: rest =>
    match physAddr pt va with
    | none => none
    | some pa => writeBytes pt (fun p => if p = pa then b else mem p) (va + 1) rest

/-- Modelled from the spec: the pointer-bridge read (spec section 4.2), one
byte per translated page. -/
def readBytes (pt : PageTable) (mem : PhysMem) (va : Nat) :
    Nat → Option (List Nat)
  | 0 => some []
  | n + 1 =>
    match physAddr pt va with
    | none => none
    | some pa => (readBytes pt mem (va + 1) n).map (fun rest => mem pa :: rest)

/-- Little-endian byte image of width `w` of a machine integer. -/
def leBytes : Nat → Nat → List Nat
  | 0, _ => []
  | w + 1, v => v % 256 :: leBytes w (v / 256)

/-- The `#[repr(C)]` byte image of a `TimeVal` (process.rs lines 18-23):
two 64-bit little-endian words, `sec` then `usec`. -/
def timeValBytes (sec usec : Nat) : List Nat :=
  leBytes 8 sec ++ leBytes 8 usec

/-- The two's-complement little-endian byte image of the `i32` exit code
written by `sys_waitpid`. -/
def i32Bytes (v : Int) : List Nat :=
  leBytes 4 (v % ((2 : Int) ^ 32)).toNat

/-- `sys_get_time` (process.rs lines 125-133): computes `sec` and `usec`
from `get_time_us` and writes the 16-byte `TimeVal` through the user pointer
via the bridge.  Returns the new physical memory (`none` on `Fault`) and the
result register. -/
def sys_get_time (pt : PageTable) (mem : PhysMem) (ts : Nat) (us : Nat) :
    Option PhysMem × Int :=
  (writeBytes pt mem ts (timeValBytes (us / 1000000) (us % 1000000)), 0)

/-- For `port < 8` the built permission is the bare `U` bit iff `port` has
no access bits at all. -/
theorem mkPermission_eq_U_iff_low (port : Nat) (h : port < 8) :
    mkPermission port = MapPermission.U ↔ port = 0 := by
  interval_cases port <;> decide

/-- For `0 < port < 8` the built permission carries at least one access
bit. -/
theorem mkPermission_has_access (port : Nat) (h0 : 0 < port) (h8 : port < 8) :
    mkPermission port &&&
      (MapPermission.R ||| MapPermission.W ||| MapPermission.X) ≠ 0 := by
  interval_cases port <;> decide

/-- C3: `sys_mmap` returns -1 exactly when `start` is misaligned, or `port`
has a bit set outside positions 0-2, or `port = 0`, or the requested
(page-rounded) range overlaps an existing region; otherwise it returns 0. -/
theorem sys_mmap_result_characterisation (ms : MemorySet) (start len port : Nat) :
    (sys_mmap ms start len port).1 =
      if start % PAGE_SIZE ≠ 0 ∨ port &&& 7 ≠ port ∨ port = 0 ∨
          ms.any (fun a => a.overlaps start (start + pageRound len)) = true
      then -1 else 0 := by
  have h7 : port &&& 7 = port % 8 := by
    simpa using Nat.and_pow_two_sub_one_eq_mod port 3
  have hm8 : port % 8 < 8 := Nat.mod_lt port (by norm_num)
  unfold sys_mmap
  by_cases ha : start % PAGE_SIZE ≠ 0
  · simp [ha]
  · rw [if_neg ha]
    show (if port - (port &&& 7) > 0 ∨ mkPermission port = MapPermission.U
        then ((-1 : Int), ms)
        else
          match mmap_allocate_area ms start (start + pageRound len)
              (mkPermission port) with
          | .ok ms2 => ((0 : Int), ms2)
          | .error _ => ((-1 : Int), ms)).1 = _
    by_cases hp8 : port < 8
    · have hpp : port % 8 = port := Nat.mod_eq_of_lt hp8
      have hsub : ¬ port - (port &&& 7) > 0 := by omega
      by_cases hz : port = 0
      · rw [if_pos (Or.inr (by rw [hz]; decide)),
          if_pos (Or.inr (Or.inr (Or.inl hz)))]
      · have hperm : ¬ mkPermission port = MapPermission.U := by
          rw [mkPermission_eq_U_iff_low port hp8]; exact hz
        rw [if_neg (not_or.mpr ⟨hsub, hperm⟩)]
        unfold mmap_allocate_area
        by_cases hov : ms.any (fun a => a.overlaps start (start + pageRound len)) = true
        · rw [if_pos hov, if_pos (Or.inr (Or.inr (Or.inr hov)))]
        · rw [if_neg hov,
            if_neg (mkPermission_has_access port (Nat.pos_of_ne_zero hz) hp8),
            if_neg ?hcond]
          case hcond =>
            push_neg
            refine ⟨by omega, by omega, hz, hov⟩
    · have hgt : port - (port &&& 7) > 0 := by omega
      rw [if_pos (Or.inl hgt)]
      have hne : port &&& 7 ≠ port := by omega
      rw [if_pos (Or.inr (Or.inl hne))]

/-- Membership in an address-ordered insertion. -/
theorem mem_insertArea (r x : MemArea) (l : MemorySet) :
    x ∈ insertArea r l ↔ x = r ∨ x ∈ l := by
  induction l with
  | nil => simp [insertArea]
  | cons a rest ih =>
    simp only [insertArea]
    split
    · simp [List.mem_cons]
    · simp only [List.mem_cons, ih]
      tauto

/-- Erasing the freshly inserted region restores the original list when no
original region satisfies the predicate. -/
theorem eraseP_insertArea (p : MemArea → Bool) (r : MemArea) (l : MemorySet)
    (hr : p r = true) (hl : ∀ a ∈ l, p a = false) :
    (insertArea r l).eraseP p = l := by
  induction l with
  | nil => simp [insertArea, List.eraseP_cons, hr]
  | cons a rest ih =>
    simp only [insertArea]
    split
    · simp [List.eraseP_cons, hr]
    · have ha := hl a (by simp)
      rw [List.eraseP_cons, ha]
      simp only [cond_false]
      rw [ih (fun x hx => hl x (by simp [hx]))]

/-- C7: on a page-aligned `start`, a positive page-multiple `len` disjoint
from every existing region, and a valid `port`, `sys_mmap` followed by
`sys_munmap` with identical arguments both succeed and leave the address
space exactly as it was. -/
theorem sys_mmap_munmap_roundtrip (ms : MemorySet) (start len port : Nat)
    (hs : start % PAGE_SIZE = 0) (hl0 : 0 < len) (hlp : len % PAGE_SIZE = 0)
    (hport7 : port &&& 7 = port) (hpz : port ≠ 0)
    (hdisj : ms.any (fun a => a.overlaps start (start + len)) = false) :
    (sys_mmap ms start len port).1 = 0 ∧
    (sys_munmap (sys_mmap ms start len port).2 start len).1 = 0 ∧
    (sys_munmap (sys_mmap ms start len port).2 start len).2 = ms := by
  have h7 : port &&& 7 = port % 8 := by
    simpa using Nat.and_pow_two_sub_one_eq_mod port 3
  have hm8 : port % 8 < 8 := Nat.mod_lt port (by norm_num)
  have hp8 : port < 8 := by omega
  have hround : pageRound len = len := by
    unfold pageRound
    rw [if_neg (by omega)]
  have hnov : ¬ ms.any (fun a => a.overlaps start (start + len)) = true := by
    rw [hdisj]; exact Bool.false_ne_true
  have hmm : sys_mmap ms start len port =
      (0, insertArea
        { start := start, stop := start + len, perm := mkPermission port } ms) := by
    unfold sys_mmap
    rw [if_neg (by omega : ¬ start % PAGE_SIZE ≠ 0)]
    show (if port - (port &&& 7) > 0 ∨ mkPermission port = MapPermission.U
        then ((-1 : Int), ms)
        else
          match mmap_allocate_area ms start (start + pageRound len)
              (mkPermission port) with
          | .ok ms2 => ((0 : Int), ms2)
          | .error _ => ((-1 : Int), ms)) =
      (0, insertArea
        { start := start, stop := start + len, perm := mkPermission port } ms)
    rw [if_neg (not_or.mpr ⟨(by omega : ¬ port - (port &&& 7) > 0),
      (by rw [mkPermission_eq_U_iff_low port hp8]; exact hpz)⟩)]
    unfold mmap_allocate_area
    rw [hround, if_neg hnov,
      if_neg (mkPermission_has_access port (Nat.pos_of_ne_zero hpz) hp8)]
  simp only [List.any_eq_false] at hdisj
  have hp_r : MemArea.exactMatch
      { start := start, stop := start + len, perm := mkPermission port }
      start (start + len) = true := by
    simp [MemArea.exactMatch]
  have hp_ms : ∀ a ∈ ms, a.exactMatch start (start + len) = false := by
    intro a hal
    cases h : a.exactMatch start (start + len) with
    | false => rfl
    | true =>
      exfalso
      simp only [MemArea.exactMatch, Bool.and_eq_true, beq_iff_eq] at h
      have : a.overlaps start (start + len) = true := by
        simp only [MemArea.overlaps, h.1, h.2, decide_eq_true_eq]
        omega
      exact hdisj a hal this
  have hmem : ({ start := start, stop := start + len, perm := mkPermission port }
      : MemArea) ∈ insertArea
        { start := start, stop := start + len, perm := mkPermission port } ms :=
    (mem_insertArea _ _ ms).mpr (Or.inl rfl)
  have hany2 : (insertArea
      { start := start, stop := start + len, perm := mkPermission port } ms).any
        (fun a => a.exactMatch start (start + len)) = true :=
    List.any_eq_true.mpr ⟨_, hmem, hp_r⟩
  have herase : (insertArea
      { start := start, stop := start + len, perm := mkPermission port } ms).eraseP
        (fun a => a.exactMatch start (start + len)) = ms :=
    eraseP_insertArea _ _ ms hp_r hp_ms
  refine ⟨by rw [hmm], ?_, ?_⟩
  · rw [hmm]
    unfold sys_munmap unmap_free_area
    rw [if_neg (by omega : ¬ start % PAGE_SIZE ≠ 0), if_pos hany2]
  · rw [hmm]
    unfold sys_munmap unmap_free_area
    rw [if_neg (by omega : ¬ start % PAGE_SIZE ≠ 0), if_pos hany2]
    exact herase

/-- Witness: a concrete round trip on the empty address space. -/
theorem sys_mmap_munmap_roundtrip_witness :
    (sys_mmap [] 4096 4096 1).1 = 0 ∧
    (sys_munmap (sys_mmap [] 4096 4096 1).2 4096 4096).1 = 0 ∧
    (sys_munmap (sys_mmap [] 4096 4096 1).2 4096 4096).2 = [] :=
  sys_mmap_munmap_roundtrip [] 4096 4096 1 (by decide) (by decide) (by decide)
    (by decide) (by decide) (by decide)

/-- `sys_mmap` with its two `let` bindings expanded. -/
theorem sys_mmap_unfold (ms : MemorySet) (start len port : Nat) :
    sys_mmap ms start len port =
      if start % PAGE_SIZE ≠ 0 then (-1, ms)
      else if port - (port &&& 7) > 0 ∨ mkPermission port = MapPermission.U then
        (-1, ms)
      else
        match mmap_allocate_area ms start (start + pageRound len)
            (mkPermission port) with
        | .ok ms2 => (0, ms2)
        | .error _ => (-1, ms) := rfl

/-- C9: `sys_mmap` rounds `len` up to a page multiple while `sys_munmap`
uses the raw length, so after a successful `sys_mmap` with a `len` that is
not a page multiple, `sys_munmap` with the identical arguments asks for a
strictly smaller range, matches no region exactly, and returns -1 leaving
the mapping in place. -/
theorem sys_munmap_after_unrounded_mmap (ms : MemorySet) (start len port : Nat)
    (hs : start % PAGE_SIZE = 0) (hl0 : 0 < len)
    (hlnp : len % PAGE_SIZE ≠ 0)
    (hok : (sys_mmap ms start len port).1 = 0) :
    len < pageRound len ∧
    (sys_munmap (sys_mmap ms start len port).2 start len).1 = -1 ∧
    (sys_munmap (sys_mmap ms start len port).2 start len).2 =
      (sys_mmap ms start len port).2 := by
  have hpg : 0 < PAGE_SIZE := by decide
  have hmod : len % PAGE_SIZE < PAGE_SIZE := Nat.mod_lt len hpg
  have hmp : 0 < len % PAGE_SIZE := Nat.pos_of_ne_zero hlnp
  have haddmod : (len + PAGE_SIZE) % PAGE_SIZE = len % PAGE_SIZE :=
    Nat.add_mod_right len PAGE_SIZE
  have hroundgt : len < pageRound len := by
    unfold pageRound
    rw [if_pos hmp, haddmod]
    omega
  rw [sys_mmap_unfold] at hok
  have ha : ¬ start % PAGE_SIZE ≠ 0 := by omega
  rw [if_neg ha] at hok
  by_cases hcond : port - (port &&& 7) > 0 ∨ mkPermission port = MapPermission.U
  · rw [if_pos hcond] at hok
    simp at hok
  rw [if_neg hcond] at hok
  unfold mmap_allocate_area at hok
  by_cases hov : ms.any (fun a => a.overlaps start (start + pageRound len)) = true
  · rw [if_pos hov] at hok
    simp at hok
  rw [if_neg hov] at hok
  by_cases hpz : mkPermission port &&&
      (MapPermission.R ||| MapPermission.W ||| MapPermission.X) = 0
  · rw [if_pos hpz] at hok
    simp at hok
  rw [if_neg hpz] at hok
  have hmmeq : sys_mmap ms start len port =
      (0, insertArea
        { start := start, stop := start + pageRound len,
          perm := mkPermission port } ms) := by
    rw [sys_mmap_unfold, if_neg ha, if_neg hcond]
    unfold mmap_allocate_area
    rw [if_neg hov, if_neg hpz]
  rw [Bool.not_eq_true] at hov
  simp only [List.any_eq_false] at hov
  have hnoexact : ∀ a ∈ insertArea
      { start := start, stop := start + pageRound len,
        perm := mkPermission port } ms,
      a.exactMatch start (start + len) = false := by
    intro a hal
    cases h : a.exactMatch start (start + len) with
    | false => rfl
    | true =>
      exfalso
      simp only [MemArea.exactMatch, Bool.and_eq_true, beq_iff_eq] at h
      rcases (mem_insertArea _ a ms).mp hal with heq | hin
      · rw [heq] at h
        simp only at h
        omega
      · have : a.overlaps start (start + pageRound len) = true := by
          simp only [MemArea.overlaps, h.1, h.2, decide_eq_true_eq]
          omega
        exact (hov a hin) this
  have hanyfalse : (insertArea
      { start := start, stop := start + pageRound len,
        perm := mkPermission port } ms).any
      (fun a => a.exactMatch start (start + len)) = false :=
    List.any_eq_false.mpr (fun a h => by
      rw [hnoexact a h]
      exact Bool.false_ne_true)
  refine ⟨hroundgt, ?_, ?_⟩
  · rw [hmmeq]
    unfold sys_munmap unmap_free_area
    rw [if_neg ha, if_neg (by rw [hanyfalse]; exact Bool.false_ne_true)]
  · rw [hmmeq]
    unfold sys_munmap unmap_free_area
    rw [if_neg ha, if_neg (by rw [hanyfalse]; exact Bool.false_ne_true)]

/-- Witness: mapping 100 bytes at page 1 maps a whole page; unmapping with
the same raw length fails. -/
theorem sys_munmap_after_unrounded_mmap_witness :
    100 < pageRound 100 ∧
    (sys_munmap (sys_mmap [] 4096 100 1).2 4096 100).1 = -1 ∧
    (sys_munmap (sys_mmap [] 4096 100 1).2 4096 100).2 =
      (sys_mmap [] 4096 100 1).2 :=
  sys_munmap_after_unrounded_mmap [] 4096 100 1 (by decide) (by decide)
    (by decide) (by decide)

/-- The mask of the low sixteen bits is reduction modulo `2 ^ 16`. -/
theorem and_ffff_eq_mod (x : Nat) : x &&& 0xffff = x % 2 ^ 16 := by
  simpa using Nat.and_pow_two_sub_one_eq_mod x 16

/-- C8: the time reported by `sys_task_info` is the wrapping difference of
the 16-bit-truncated millisecond clock `(sec & 0xffff) * 1000 + usec / 1000`
and the stored `running_time`; that clock is periodic in `2 ^ 16` seconds,
and for every wall-clock reading of at least `2 ^ 16` seconds the reported
time differs from the true elapsed milliseconds. -/
theorem sys_task_info_time_truncated (status : TaskStatus) (cnt : List Nat)
    (us rt : Nat) (hus : us < USIZE_MOD) (hsec : 2 ^ 16 ≤ us / 1000000) :
    (sys_task_info status cnt us rt).time = usizeSub (truncMs us) rt ∧
    truncMs (us + 2 ^ 16 * 1000000) = truncMs us ∧
    (((sys_task_info status cnt us rt).time : Int)) ≠ (trueMs us : Int) - (rt : Int) := by
  refine ⟨rfl, ?_, ?_⟩
  · unfold truncMs
    rw [Nat.add_mul_div_right _ _ (by norm_num : 0 < 1000000),
      Nat.add_mul_mod_self_right, and_ffff_eq_mod, and_ffff_eq_mod,
      Nat.add_mod_right]
  · intro heq
    have h1 : (sys_task_info status cnt us rt).time = usizeSub (truncMs us) rt := rfl
    rw [h1] at heq
    unfold usizeSub USIZE_MOD truncMs trueMs at heq
    rw [and_ffff_eq_mod] at heq
    have e16 : (2 : Nat) ^ 16 = 65536 := by norm_num
    have e64 : (2 : Nat) ^ 64 = 18446744073709551616 := by norm_num
    rw [e16] at heq
    rw [e64] at heq
    unfold USIZE_MOD at hus
    rw [e64] at hus
    rw [e16] at hsec
    have hm : us / 1000000 % 65536 < 65536 := Nat.mod_lt _ (by norm_num)
    have hu3 : us % 1000000 / 1000 < 1000 := by omega
    have hT : us / 1000000 * 1000 + us % 1000000 / 1000 <
        18446744073709551616 := by omega
    have ht : us / 1000000 % 65536 * 1000 + us % 1000000 / 1000 <
        us / 1000000 * 1000 + us % 1000000 / 1000 := by omega
    generalize hgT : us / 1000000 * 1000 + us % 1000000 / 1000 = T at heq hT ht
    generalize hgt : us / 1000000 % 65536 * 1000 + us % 1000000 / 1000 = t at heq ht
    clear hgT hgt hus hsec hm hu3
    omega

/-- Witness for the truncation theorem at `us = 2 ^ 16` seconds. -/
theorem sys_task_info_time_truncated_witness :
    (sys_task_info .Running [] 65536000000 0).time = usizeSub (truncMs 65536000000) 0 ∧
    truncMs (65536000000 + 2 ^ 16 * 1000000) = truncMs 65536000000 ∧
    (((sys_task_info .Running [] 65536000000 0).time : Int)) ≠
      (trueMs 65536000000 : Int) - (0 : Int) :=
  sys_task_info_time_truncated .Running [] 65536000000 0 (by decide) (by decide)

/-- C10: the subtraction in `sys_task_info` is unguarded `usize` arithmetic:
it yields the exact difference precisely when the truncated clock is at
least `running_time`, it never yields the (negative) exact difference when
the truncated clock is smaller, and wall-clock values past the `2 ^ 16`
second wrap make the precondition fail. -/
theorem sys_task_info_unguarded_sub :
    (∀ (status : TaskStatus) (cnt : List Nat) (us rt : Nat),
        rt ≤ truncMs us →
        ((sys_task_info status cnt us rt).time : Int) = (truncMs us : Int) - rt) ∧
    (∀ (status : TaskStatus) (cnt : List Nat) (us rt : Nat),
        truncMs us < rt →
        ((sys_task_info status cnt us rt).time : Int) ≠ (truncMs us : Int) - rt) ∧
    (∃ us rt : Nat, 2 ^ 16 ≤ us / 1000000 ∧ truncMs us < rt) := by
  refine ⟨?_, ?_, ⟨65536000000, 1, by decide, by decide⟩⟩
  · intro status cnt us rt hle
    have h1 : (sys_task_info status cnt us rt).time = usizeSub (truncMs us) rt := rfl
    rw [h1]
    unfold truncMs at hle
    unfold usizeSub USIZE_MOD truncMs
    rw [and_ffff_eq_mod] at hle ⊢
    have e16 : (2 : Nat) ^ 16 = 65536 := by norm_num
    have e64 : (2 : Nat) ^ 64 = 18446744073709551616 := by norm_num
    rw [e16] at hle ⊢
    rw [e64]
    have hm : us / 1000000 % 65536 < 65536 := Nat.mod_lt _ (by norm_num)
    have hu3 : us % 1000000 / 1000 < 1000 := by omega
    have htb : us / 1000000 % 65536 * 1000 + us % 1000000 / 1000 <
        18446744073709551616 := by omega
    generalize hgt : us / 1000000 % 65536 * 1000 + us % 1000000 / 1000 = t
      at hle htb ⊢
    clear hgt hm hu3
    omega
  · intro status cnt us rt hlt heq
    have h1 : (sys_task_info status cnt us rt).time = usizeSub (truncMs us) rt := rfl
    rw [h1] at heq
    unfold truncMs at hlt
    unfold usizeSub USIZE_MOD truncMs at heq
    rw [and_ffff_eq_mod] at hlt heq
    have e16 : (2 : Nat) ^ 16 = 65536 := by norm_num
    have e64 : (2 : Nat) ^ 64 = 18446744073709551616 := by norm_num
    rw [e16] at hlt heq
    rw [e64] at heq
    generalize hgt : us / 1000000 % 65536 * 1000 + us % 1000000 / 1000 = t
      at hlt heq
    clear hgt
    omega

/-- Witness: with the clock exactly at the wrap and a positive stored
`running_time`, the unguarded subtraction underflows. -/
theorem sys_task_info_unguarded_sub_witness :
    ((sys_task_info .Running [] 65536000000 1).time : Int) ≠
      (truncMs 65536000000 : Int) - 1 :=
  sys_task_info_unguarded_sub.2.1 .Running [] 65536000000 1 (by decide)

/-- `find_zombie` returns `none` on a list with no matching zombie. -/
theorem find_zombie_none (pid : Int) :
    ∀ l : List TCB,
      (∀ p ∈ l, (p.is_zombie && waitpid_matches pid p) = false) →
      find_zombie pid l = none
  | [], _ => rfl
  | a :: rest, h => by
    unfold find_zombie
    rw [if_neg (by rw [h a (by simp)]; exact Bool.false_ne_true),
      find_zombie_none pid rest (fun p hp => h p (by simp [hp]))]
    rfl

/-- What a successful `find_zombie` returns: the pointed-at child satisfies
the zombie-and-matches predicate, and every earlier child fails it. -/
theorem find_zombie_some (pid : Int) :
    ∀ (l : List TCB) (i : Nat) (c : TCB),
      find_zombie pid l = some (i, c) →
      l[i]? = some c ∧ (c.is_zombie && waitpid_matches pid c) = true ∧
      ∀ j, j < i → ∀ p, l[j]? = some p →
        (p.is_zombie && waitpid_matches pid p) = false
  | [], i, c, h => by simp [find_zombie] at h
  | a :: rest, i, c, h => by
    unfold find_zombie at h
    by_cases hp : (a.is_zombie && waitpid_matches pid a) = true
    · rw [if_pos hp] at h
      simp only [Option.some.injEq, Prod.mk.injEq] at h
      obtain ⟨hi, hc⟩ := h
      subst hi
      subst hc
      refine ⟨by simp, hp, ?_⟩
      intro j hj
      omega
    · rw [if_neg hp] at h
      cases hfr : find_zombie pid rest with
      | none => rw [hfr] at h; simp at h
      | some ic =>
        obtain ⟨i', c'⟩ := ic
        rw [hfr] at h
        simp only [Option.map, Option.some.injEq, Prod.mk.injEq] at h
        obtain ⟨hi, hc⟩ := h
        subst hi
        subst hc
        obtain ⟨hg, hpred, hbefore⟩ := find_zombie_some pid rest i' c' hfr
        refine ⟨by simpa using hg, hpred, ?_⟩
        intro j hj p hpj
        cases j with
        | zero =>
          simp only [List.getElem?_cons_zero, Option.some.injEq] at hpj
          subst hpj
          rw [Bool.eq_false_iff]
          exact hp
        | succ j2 =>
          simp only [List.getElem?_cons_succ] at hpj
          exact hbefore j2 (by omega) p hpj

/-- With pairwise-distinct pids, a task at index `i` shares its pid with no
element of the list with index `i` erased. -/
theorem pid_ne_of_mem_eraseIdx :
    ∀ (l : List TCB) (i : Nat) (c : TCB),
      (l.map TCB.pid).Nodup → l[i]? = some c →
      ∀ p ∈ l.eraseIdx i, p.pid ≠ c.pid
  | [], i, c, _, hc => by simp at hc
  | a :: rest, 0, c, hn, hc => by
    simp only [List.getElem?_cons_zero, Option.some.injEq] at hc
    subst hc
    rw [List.map_cons, List.nodup_cons] at hn
    intro p hp heq
    exact hn.1 (heq ▸ List.mem_map_of_mem _ (by simpa using hp))
  | a :: rest, i + 1, c, hn, hc => by
    simp only [List.getElem?_cons_succ] at hc
    rw [List.map_cons, List.nodup_cons] at hn
    intro p hp
    rcases (by simpa using hp : p = a ∨ p ∈ rest.eraseIdx i) with rfl | hin
    · intro heq
      exact hn.1 (heq ▸ List.mem_map_of_mem _ (List.getElem?_mem hc))
    · exact pid_ne_of_mem_eraseIdx rest i c hn.2 hc p hin

/-- C2: `sys_waitpid` returns -1 when no child matches `pid`, -2 when some
child matches but no matching child is a Zombie, and otherwise removes the
first matching Zombie child in children-list order, delivers its exit code,
and returns its pid; afterwards a `sys_waitpid` for that pid returns -1, so
the exit code is collected exactly once. -/
theorem sys_waitpid_spec (children : List TCB) (pid : Int)
    (hbound : ∀ p ∈ children, p.pid < USIZE_MOD)
    (hnodup : (children.map TCB.pid).Nodup) :
    (children.any (fun p => waitpid_matches pid p) = false →
      sys_waitpid children pid = (-1, children, none)) ∧
    (children.any (fun p => waitpid_matches pid p) = true →
      (∀ p ∈ children, ¬ (p.is_zombie = true ∧ waitpid_matches pid p = true)) →
      sys_waitpid children pid = (-2, children, none)) ∧
    (∀ i c, find_zombie pid children = some (i, c) →
      sys_waitpid children pid =
        ((c.pid : Int), children.eraseIdx i, some c.exit_code) ∧
      children[i]? = some c ∧
      c.is_zombie = true ∧ waitpid_matches pid c = true ∧
      (∀ j, j < i → ∀ p, children[j]? = some p →
        ¬ (p.is_zombie = true ∧ waitpid_matches pid p = true)) ∧
      sys_waitpid (children.eraseIdx i) (c.pid : Int) =
        (-1, children.eraseIdx i, none)) := by
  refine ⟨?_, ?_, ?_⟩
  · intro hany
    unfold sys_waitpid
    rw [if_pos (by rw [hany]; exact Bool.false_ne_true)]
  · intro hany hnozombie
    unfold sys_waitpid
    rw [if_neg (not_not_intro hany),
      find_zombie_none pid children (fun p hp => by
        rw [Bool.eq_false_iff]
        intro ht
        exact hnozombie p hp (Bool.and_eq_true _ _ ▸ ht))]
  · intro i c hfz
    obtain ⟨hg, hpred, hbefore⟩ := find_zombie_some pid children i c hfz
    rw [Bool.and_eq_true] at hpred
    have hcmem : c ∈ children := List.getElem?_mem hg
    have hany : children.any (fun p => waitpid_matches pid p) = true :=
      List.any_eq_true.mpr ⟨c, hcmem, hpred.2⟩
    have hfirst : sys_waitpid children pid =
        ((c.pid : Int), children.eraseIdx i, some c.exit_code) := by
      unfold sys_waitpid
      rw [if_neg (not_not_intro hany), hfz]
      rfl
    have hne : ∀ p ∈ children.eraseIdx i, p.pid ≠ c.pid :=
      pid_ne_of_mem_eraseIdx children i c hnodup hg
    have hnomatch : ∀ p ∈ children.eraseIdx i,
        waitpid_matches (c.pid : Int) p = false := by
      intro p hp
      unfold waitpid_matches
      have h1 : (((c.pid : Nat) : Int) == -1) = false := by
        rw [beq_eq_false_iff_ne]
        intro hcon
        omega
      have hc64 : c.pid < USIZE_MOD := hbound c hcmem
      have h2 : ((((c.pid : Nat) : Int) % (USIZE_MOD : Int)).toNat == p.getpid)
          = false := by
        rw [beq_eq_false_iff_ne,
          Int.emod_eq_of_lt (by omega) (by exact_mod_cast hc64),
          Int.toNat_natCast]
        intro heq
        exact hne p hp heq.symm
      rw [h1, h2]
      rfl
    have hsecond : sys_waitpid (children.eraseIdx i) (c.pid : Int) =
        (-1, children.eraseIdx i, none) := by
      unfold sys_waitpid
      rw [if_pos (by
        rw [List.any_eq_false.mpr (fun p hp => by
          rw [hnomatch p hp]; exact Bool.false_ne_true)]
        exact Bool.false_ne_true)]
    refine ⟨hfirst, hg, hpred.1, hpred.2, ?_, hsecond⟩
    intro j hj p hpj hcon
    have hb := hbefore j hj p hpj
    rw [hcon.1, hcon.2] at hb
    simp at hb

/-- A concrete zombie child used in witnesses. -/
def sampleZombie : TCB :=
  { pid := 2, status := .Zombie, exit_code := 7, memory_set := [],
    trap_cx := { sepc := 0, sp := 0, a0 := 0 },
    task_cx := TaskContext.zero_init, cmd_path := "a",
    syscall_count := [], running_time := 0 }

/-- A concrete still-running child used in witnesses. -/
def sampleReady : TCB :=
  { pid := 3, status := .Ready, exit_code := 0, memory_set := [],
    trap_cx := { sepc := 0, sp := 0, a0 := 0 },
    task_cx := TaskContext.zero_init, cmd_path := "b",
    syscall_count := [], running_time := 0 }

/-- Witness: collecting the zombie child with `waitpid(-1)` removes it and
returns its pid and exit code; a second wait for that pid returns -1. -/
theorem sys_waitpid_spec_witness :
    sys_waitpid [sampleZombie, sampleReady] (-1) =
      ((sampleZombie.pid : Int), [sampleZombie, sampleReady].eraseIdx 0,
        some sampleZombie.exit_code) ∧
    sys_waitpid ([sampleZombie, sampleReady].eraseIdx 0) (sampleZombie.pid : Int) =
      (-1, [sampleZombie, sampleReady].eraseIdx 0, none) :=
  ⟨((sys_waitpid_spec [sampleZombie, sampleReady] (-1) (by decide) (by decide)).2.2
      0 sampleZombie (by decide)).1,
   ((sys_waitpid_spec [sampleZombie, sampleReady] (-1) (by decide) (by decide)).2.2
      0 sampleZombie (by decide)).2.2.2.2.2⟩

/-- A concrete loadable image used in witnesses. -/
def sampleImage : Image :=
  { memory_set := [{ start := 65536, stop := 69632, perm := 31 }],
    entry := 65536, usp := 8384512 }

/-- A concrete kernel state with a single loadable image named `app`. -/
def sampleKernel : Kernel :=
  { apps := [("app", sampleImage)], current := sampleReady,
    children := [], run_queue := [], next_pid := 5 }

/-- C5: `sys_exec` of a path naming no loadable image returns -1 and leaves
the calling task - its address space, trap context, and every other field -
exactly as it was. -/
theorem sys_exec_missing_image (k : Kernel) (path : String)
    (hmiss : get_app_data_by_name path k.apps = none) :
    sys_exec k path = (-1, k) ∧
    (sys_exec k path).2.current.memory_set = k.current.memory_set ∧
    (sys_exec k path).2.current.trap_cx = k.current.trap_cx ∧
    (sys_exec k path).2.current = k.current := by
  have h : sys_exec k path = (-1, k) := by
    unfold sys_exec
    rw [hmiss]
  exact ⟨h, by rw [h], by rw [h], by rw [h]⟩

/-- Witness: exec of a missing image on the sample kernel. -/
theorem sys_exec_missing_image_witness :
    sys_exec sampleKernel "nosuch" = (-1, sampleKernel) ∧
    (sys_exec sampleKernel "nosuch").2.current.memory_set =
      sampleKernel.current.memory_set ∧
    (sys_exec sampleKernel "nosuch").2.current.trap_cx =
      sampleKernel.current.trap_cx ∧
    (sys_exec sampleKernel "nosuch").2.current = sampleKernel.current :=
  sys_exec_missing_image sampleKernel "nosuch" (by decide)

/-- C4: `sys_spawn` of a path naming no loadable image returns -1 before
any task is created: the kernel state, and in particular the scheduler's
run queue, the children list, and the pid counter, are unchanged. -/
theorem sys_spawn_missing_image (k : Kernel) (path : String)
    (hmiss : get_app_data_by_name path k.apps = none) :
    sys_spawn k path = (-1, k) ∧
    (sys_spawn k path).2.run_queue = k.run_queue ∧
    (sys_spawn k path).2.children = k.children ∧
    (sys_spawn k path).2.next_pid = k.next_pid := by
  have h : sys_spawn k path = (-1, k) := by
    unfold sys_spawn
    rw [if_pos (by rw [hmiss]; rfl)]
  exact ⟨h, by rw [h], by rw [h], by rw [h]⟩

/-- Witness: spawn of a missing image on the sample kernel. -/
theorem sys_spawn_missing_image_witness :
    sys_spawn sampleKernel "nosuch" = (-1, sampleKernel) ∧
    (sys_spawn sampleKernel "nosuch").2.run_queue = sampleKernel.run_queue ∧
    (sys_spawn sampleKernel "nosuch").2.children = sampleKernel.children ∧
    (sys_spawn sampleKernel "nosuch").2.next_pid = sampleKernel.next_pid :=
  sys_spawn_missing_image sampleKernel "nosuch" (by decide)

/-- C6: a spawned task's saved context returns to the first-dispatch routine
`trap_exec`, not to `trap_return`; on dispatch that routine execs the
pending path and trap-returns when the image exists, and otherwise exits the
task with the nonzero code 1, never resuming user mode. -/
theorem spawn_first_dispatch_trap_exec :
    (∀ kstack : Nat,
      (TaskContext.goto_trap_exec kstack).ra = CodeAddr.trapExec ∧
      (TaskContext.goto_trap_return kstack).ra = CodeAddr.trapReturn ∧
      CodeAddr.trapExec ≠ CodeAddr.trapReturn) ∧
    (∀ (k : Kernel) (path : String),
      (spawn_child k path).task_cx.ra = CodeAddr.trapExec ∧
      (spawn_child k path).cmd_path = path) ∧
    (∀ (apps : List (String × Image)) (t : TCB) (img : Image),
      get_app_data_by_name t.cmd_path apps = some img →
      trap_exec apps t = .userResume (t.exec img)) ∧
    (∀ (apps : List (String × Image)) (t : TCB),
      get_app_data_by_name t.cmd_path apps = none →
      trap_exec apps t = .killed 1 ∧ (1 : Int) ≠ 0 ∧
      ∀ t2 : TCB, trap_exec apps t ≠ TrapOutcome.userResume t2) := by
  refine ⟨fun kstack => ⟨rfl, rfl, by decide⟩, fun k path => ⟨rfl, rfl⟩, ?_, ?_⟩
  · intro apps t img hsome
    unfold trap_exec
    rw [hsome]
  · intro apps t hnone
    have h : trap_exec apps t = .killed 1 := by
      unfold trap_exec
      rw [hnone]
    exact ⟨h, by decide, fun t2 hcon => by rw [h] at hcon; exact absurd hcon (by simp)⟩

/-- Witness: the deferred exec of the sample spawned task succeeds on the
present image and kills the task when the image is missing. -/
theorem spawn_first_dispatch_trap_exec_witness :
    trap_exec sampleKernel.apps (spawn_child sampleKernel "app") =
      .userResume ((spawn_child sampleKernel "app").exec sampleImage) ∧
    trap_exec [] (spawn_child sampleKernel "missing") = .killed 1 :=
  ⟨spawn_first_dispatch_trap_exec.2.2.1 sampleKernel.apps
      (spawn_child sampleKernel "app") sampleImage (by decide),
   (spawn_first_dispatch_trap_exec.2.2.2 []
      (spawn_child sampleKernel "missing") (by decide)).1⟩

/-- Bytes outside the written range are untouched by a bridge write. -/
theorem writeBytes_unchanged (pt : PageTable) :
    ∀ (bs : List Nat) (mem : PhysMem) (va : Nat) (m' : PhysMem) (p : Nat),
      writeBytes pt mem va bs = some m' →
      (∀ j, j < bs.length → physAddr pt (va + j) ≠ some p) →
      m' p = mem p
  | [], mem, va, m', p, hw, _ => by
    simp [writeBytes] at hw
    rw [← hw]
  | b :: rest, mem, va, m', p, hw, hnp => by
    unfold writeBytes at hw
    cases hpa : physAddr pt va with
    | none => rw [hpa] at hw; simp at hw
    | some pa =>
      rw [hpa] at hw
      have hstep := writeBytes_unchanged pt rest _ (va + 1) m' p hw (fun j hj => by
        have hh := hnp (j + 1) (by simp; omega)
        rwa [show va + (j + 1) = va + 1 + j from by omega] at hh)
      rw [hstep]
      have hne : pa ≠ p := fun hcon => hnp 0 (by simp) (by rw [Nat.add_zero, hpa, hcon])
      rw [if_neg (fun hc => hne hc.symm)]

/-- Writing a byte list through per-byte translation and reading it back
returns the same list, whenever every byte's page is mapped and distinct
bytes land on distinct physical addresses. -/
theorem writeBytes_readBytes (pt : PageTable) :
    ∀ (bs : List Nat) (mem : PhysMem) (va : Nat),
      (∀ i, i < bs.length → physAddr pt (va + i) ≠ none) →
      (∀ i j, i < j → j < bs.length →
        physAddr pt (va + i) ≠ physAddr pt (va + j)) →
      ∃ m', writeBytes pt mem va bs = some m' ∧
        readBytes pt m' va bs.length = some bs
  | [], mem, va, _, _ => ⟨mem, rfl, rfl⟩
  | b :: rest, mem, va, hmap, hdist => by
    have h0 : physAddr pt va ≠ none := by
      have hh := hmap 0 (by simp)
      rwa [Nat.add_zero] at hh
    cases hpa : physAddr pt va with
    | none => exact absurd hpa h0
    | some pa =>
      obtain ⟨m', hw, hr⟩ := writeBytes_readBytes pt rest
        (fun q => if q = pa then b else mem q) (va + 1)
        (fun i hi => by
          have hh := hmap (i + 1) (by simp; omega)
          rwa [show va + (i + 1) = va + 1 + i from by omega] at hh)
        (fun i j hij hj => by
          have hh := hdist (i + 1) (j + 1) (by omega) (by simp; omega)
          rwa [show va + (i + 1) = va + 1 + i from by omega,
            show va + (j + 1) = va + 1 + j from by omega] at hh)
      refine ⟨m', ?_, ?_⟩
      · unfold writeBytes
        rw [hpa]
        exact hw
      · have hmp : m' pa = b := by
          have hu := writeBytes_unchanged pt rest _ (va + 1) m' pa hw (fun j hj => by
            have hh := hdist 0 (j + 1) (by omega) (by simp; omega)
            rw [Nat.add_zero, hpa] at hh
            rw [show va + (j + 1) = va + 1 + j from by omega] at hh
            exact fun hc => hh hc.symm)
          rw [hu]
          simp
        show readBytes pt m' va (rest.length + 1) = some (b :: rest)
        unfold readBytes
        rw [hpa]
        simp [hr, hmp]

/-- A multi-byte value whose range straddles two distinct mapped frames is
written and read back intact by the per-page bridge. -/
theorem straddle_write_readback (pt : PageTable) (mem : PhysMem) (va : Nat)
    (bs : List Nat) (f1 f2 : Nat)
    (h1 : 1 ≤ bs.length) (hn : bs.length ≤ PAGE_SIZE)
    (hpg : va / PAGE_SIZE ≠ (va + bs.length - 1) / PAGE_SIZE)
    (hm1 : pt (va / PAGE_SIZE) = some f1)
    (hm2 : pt ((va + bs.length - 1) / PAGE_SIZE) = some f2)
    (hf : f1 ≠ f2) :
    ∃ m', writeBytes pt mem va bs = some m' ∧
      readBytes pt m' va bs.length = some bs := by
  simp only [PAGE_SIZE] at hn hpg hm1 hm2
  have hq : (va + bs.length - 1) / 4096 = va / 4096 + 1 := by omega
  rw [hq] at hm2
  apply writeBytes_readBytes pt bs mem va
  · intro i hi
    unfold physAddr
    simp only [PAGE_SIZE]
    by_cases hpage : (va + i) / 4096 = va / 4096
    · rw [hpage, hm1]
      simp
    · have hpage2 : (va + i) / 4096 = va / 4096 + 1 := by omega
      rw [hpage2, hm2]
      simp
  · intro i j hij hj
    unfold physAddr
    simp only [PAGE_SIZE]
    by_cases hpi : (va + i) / 4096 = va / 4096 <;>
      by_cases hpj : (va + j) / 4096 = va / 4096
    · rw [hpi, hpj, hm1]
      simp
      omega
    · have hpj3 : (va + j) / 4096 = va / 4096 + 1 := by omega
      rw [hpi, hpj3, hm1, hm2]
      simp
      omega
    · exfalso
      omega
    · have hpi3 : (va + i) / 4096 = va / 4096 + 1 := by omega
      have hpj3 : (va + j) / 4096 = va / 4096 + 1 := by omega
      rw [hpi3, hpj3, hm2]
      simp
      omega

/-- `leBytes` produces exactly `w` bytes. -/
theorem leBytes_length : ∀ (w v : Nat), (leBytes w v).length = w
  | 0, _ => rfl
  | w + 1, v => by simp [leBytes, leBytes_length w]

/-- C1: the pointer bridge behind the user-pointer writes of `sys_get_time`
(16-byte `TimeVal`), `sys_task_info` (`TaskInfo`), and `sys_waitpid`
(4-byte `i32`) translates per page: a value of up to a page whose byte
range straddles two distinct physical pages is written and read back
byte-identically, exactly as if it were page-contained; in particular
`sys_get_time`'s `TimeVal` lands intact across the boundary. -/
theorem user_value_write_across_page_boundary :
    (∀ (pt : PageTable) (mem : PhysMem) (va : Nat) (bs : List Nat)
        (f1 f2 : Nat),
      1 ≤ bs.length → bs.length ≤ PAGE_SIZE →
      va / PAGE_SIZE ≠ (va + bs.length - 1) / PAGE_SIZE →
      pt (va / PAGE_SIZE) = some f1 →
      pt ((va + bs.length - 1) / PAGE_SIZE) = some f2 →
      f1 ≠ f2 →
      ∃ m', writeBytes pt mem va bs = some m' ∧
        readBytes pt m' va bs.length = some bs) ∧
    (∀ (pt : PageTable) (mem : PhysMem) (ts us : Nat) (f1 f2 : Nat),
      ts / PAGE_SIZE ≠ (ts + 15) / PAGE_SIZE →
      pt (ts / PAGE_SIZE) = some f1 →
      pt ((ts + 15) / PAGE_SIZE) = some f2 →
      f1 ≠ f2 →
      ∃ m', (sys_get_time pt mem ts us).1 = some m' ∧
        readBytes pt m' ts 16 =
          some (timeValBytes (us / 1000000) (us % 1000000))) ∧
    (∀ v : Int, (i32Bytes v).length = 4) ∧
    (∀ sec usec : Nat, (timeValBytes sec usec).length = 16) := by
  have hlen16 : ∀ sec usec : Nat, (timeValBytes sec usec).length = 16 := by
    intro sec usec
    simp [timeValBytes, leBytes_length]
  refine ⟨?_, ?_, ?_, hlen16⟩
  · intro pt mem va bs f1 f2 h1 hn hpg hm1 hm2 hf
    exact straddle_write_readback pt mem va bs f1 f2 h1 hn hpg hm1 hm2 hf
  · intro pt mem ts us f1 f2 hpg hm1 hm2 hf
    have hL := hlen16 (us / 1000000) (us % 1000000)
    have h15 : ts + (timeValBytes (us / 1000000) (us % 1000000)).length - 1 =
        ts + 15 := by rw [hL]; omega
    obtain ⟨m', hw, hr⟩ := straddle_write_readback pt mem ts
      (timeValBytes (us / 1000000) (us % 1000000)) f1 f2
      (by rw [hL]; norm_num)
      (by rw [hL]; simp [PAGE_SIZE])
      (by rw [h15]; exact hpg)
      hm1
      (by rw [h15]; exact hm2)
      hf
    refine ⟨m', hw, ?_⟩
    rw [← hL]
    exact hr
  · intro v
    simp [i32Bytes, leBytes_length]

/-- A concrete two-frame page table used in witnesses: virtual page 0 maps
to frame 5, virtual page 1 to frame 3. -/
def samplePageTable : PageTable :=
  fun vpn => if vpn = 0 then some 5 else if vpn = 1 then some 3 else none

/-- All-zero physical memory used in witnesses. -/
def zeroMem : PhysMem := fun _ => 0

/-- Witness: `sys_get_time` writing a `TimeVal` that straddles the boundary
between virtual pages 0 and 1 (distinct frames 5 and 3) reads back
intact. -/
theorem user_value_write_across_page_boundary_witness :
    ∃ m', (sys_get_time samplePageTable zeroMem 4088 123456789).1 = some m' ∧
      readBytes samplePageTable m' 4088 16 =
        some (timeValBytes (123456789 / 1000000) (123456789 % 1000000)) :=
  user_value_write_across_page_boundary.2.1 samplePageTable zeroMem 4088
    123456789 5 3 (by decide) (by decide) (by decide) (by decide)
